import Mathlib

/-!
Verification of the metreeca/type runtime structural validator.

The development shallowly embeds the two source modules:

* `src/index.ts` — pure guards: a `Guard` is a function from an untyped
  value to a diagnostic string (empty on success).  JavaScript values are
  embedded as the inductive `Value`; guards become Lean functions
  `Value → String`.  Where the source calls `resolve(source)` on an
  already-concrete guard, `resolve` is the identity (index of cache.ts,
  line 88), so combinators here take the resolved guards directly.

* `src/cache.ts` — the memoizing resolver.  The factory cache is mutable
  state, embedded as explicit state passing (`RState`).  Guard functions
  stored in the cache are represented by `GCode`: either a deferred-lookup
  thunk for a factory key, or a cache-independent guard function.
  JavaScript reference identity of factories and thunks is modelled by
  `Nat` keys: at most one thunk per factory key ever exists in a run
  (a thunk is installed only when the key has no entry, and entries are
  never removed), so two thunks are the same reference exactly when their
  keys coincide, and a thunk is never the same reference as a plain guard.

* the `as` assertion of `src/index.ts` mutates objects (branding and
  freezing), embedded with an explicit object heap (`Heap`, `HObj`).

JavaScript numbers are embedded as `Int`: no claim exercises fractional
or overflow behaviour, only the `typeof` tag and `toString` of small
integers.  The JS string coercion used inside diagnostics is embedded by
`showJS`; for functions JS renders source text, which is abbreviated to
"function" (no claim depends on it).
-/

namespace MetreecaType

/-- Embedded JavaScript values as seen by guards (src/index.ts).
Class instances with non-default prototypes are outside the embedded
value space; `obj` covers plain records only. -/
inductive Value where
  | null
  | undef
  | bool (b : Bool)
  | num (n : Int)
  | str (s : String)
  | fn (id : Nat)
  | arr (elems : List Value)
  | obj (entries : List (String × Value))

/-- src/index.ts `type(v)`: human-readable type name used in diagnostics. -/
def type : Value → String
  | Value.null => "null"
  | Value.undef => "undefined"
  | Value.arr _ => "array"
  | Value.bool _ => "boolean"
  | Value.num _ => "number"
  | Value.str _ => "string"
  | Value.fn _ => "function"
  | Value.obj _ => "object"

mutual

/-- JavaScript template-string coercion of a value, used in the
`unexpected <...> value` diagnostics of src/index.ts. -/
def showJS : Value → String
  | Value.null => "null"
  | Value.undef => "undefined"
  | Value.bool b => cond b "true" "false"
  | Value.num n => toString n
  | Value.str s => s
  | Value.fn _ => "function"
  | Value.arr l => showList l
  | Value.obj _ => "[object Object]"

/-- Array.prototype.toString: elements joined with commas. -/
def showList : List Value → String
  | [] => ""
  | e :: tl => showHead e ++ (if tl.isEmpty then "" else "," ++ showList tl)

/-- An array element in a join: null and undefined render empty. -/
def showHead : Value → String
  | Value.null => ""
  | Value.undef => ""
  | Value.bool b => cond b "true" "false"
  | Value.num n => toString n
  | Value.str s => s
  | Value.fn _ => "function"
  | Value.arr l => showList l
  | Value.obj _ => "[object Object]"

end

/-- src/index.ts `aNull()`. -/
def aNull : Value → String := fun v =>
  match v with
  | Value.null => ""
  | _ => "illegal <" ++ type v ++ "> value, expected <null>"

/-- src/index.ts `aBoolean()`. -/
def aBoolean : Value → String := fun v =>
  match v with
  | Value.bool _ => ""
  | _ => "illegal <" ++ type v ++ "> value, expected <boolean>"

/-- src/index.ts `aNumber()`. -/
def aNumber : Value → String := fun v =>
  match v with
  | Value.num _ => ""
  | _ => "illegal <" ++ type v ++ "> value, expected <number>"

/-- src/index.ts `aString()`. -/
def aString : Value → String := fun v =>
  match v with
  | Value.str _ => ""
  | _ => "illegal <" ++ type v ++ "> value, expected <string>"

/-- src/index.ts `aFunction()`. -/
def aFunction : Value → String := fun v =>
  match v with
  | Value.fn _ => ""
  | _ => "illegal <" ++ type v ++ "> value, expected <function>"

/-- src/index.ts `anUnknown()`. -/
def anUnknown : Value → String := fun _ => ""

/-- Array.isArray. -/
def isArrayV (v : Value) : Bool :=
  match v with
  | Value.arr _ => true
  | _ => false

/-- src/index.ts `anArray`, element loop (lines 368-376): elements checked
from index 0 upward, first failure wrapped as `[index]: diagnostic`. -/
def elementsLoop (guard : Value → String) : List Value → Nat → String
  | [], _ => ""
  | e :: tl, index =>
    let result := guard e
    if result ≠ "" then "[" ++ toString index ++ "]: " ++ result
    else elementsLoop guard tl (index + 1)

/-- src/index.ts `anArray(element?)` (lines 352-384), with `element`
already resolved (`resolve` is the identity on concrete guards). -/
def anArrayFun (element : Option (Value → String)) : Value → String := fun v =>
  match v with
  | Value.arr elems =>
    match element with
    | none => ""
    | some guard => elementsLoop guard elems 0
  | _ => "illegal <" ++ type v ++ "> value, expected <array>"

/-- src/index.ts `Constant`: literal types accepted in object schemas. -/
inductive Const where
  | cnull
  | cbool (b : Bool)
  | cnum (n : Int)
  | cstr (s : String)

/-- The value denoted by a literal schema constant. -/
def Const.toValue : Const → Value
  | Const.cnull => Value.null
  | Const.cbool b => Value.bool b
  | Const.cnum n => Value.num n
  | Const.cstr s => Value.str s

/-- JavaScript strict equality `v === expected` against a constant. -/
def constEq : Const → Value → Bool
  | Const.cnull, Value.null => true
  | Const.cbool b, Value.bool c => b == c
  | Const.cnum n, Value.num m => n == m
  | Const.cstr s, Value.str t => s == t
  | _, _ => false

/-- src/index.ts `constant(expected)` (lines 556-558). -/
def constant (expected : Const) : Value → String := fun v =>
  if constEq expected v then ""
  else "unexpected <" ++ showJS v ++ "> value, expected <" ++ showJS expected.toValue ++ ">"

/-- A schema entry (src/index.ts line 497): a literal constant
(`isConstant`) or a guard (a `Guarding`, already resolved). -/
inductive SchemaEntry where
  | lit (c : Const)
  | grd (g : Value → String)

/-- The guard compiled for a schema entry (src/index.ts line 497):
`isConstant(value) ? constant(value) : resolve(value)`. -/
def schemaEntryGuard : SchemaEntry → Value → String
  | SchemaEntry.lit c => constant c
  | SchemaEntry.grd g => g

/-- JavaScript property read `v[key]`: the first binding in the record,
`undefined` when absent.  JS records have unique keys, so first lookup is
the lookup. -/
def getProp (entries : List (String × Value)) (key : String) : Value :=
  match entries.find? (fun p => p.1 == key) with
  | some p => p.2
  | none => Value.undef

/-- src/index.ts schema guard, first loop (lines 512-520): each schema
entry in schema order, first failure wins. -/
def schemaPass (guards : List (String × (Value → String)))
    (entries : List (String × Value)) : String :=
  match guards with
  | [] => ""
  | (key, g) :: tl =>
    let result := g (getProp entries key)
    if result ≠ "" then key ++ ": " ++ result
    else schemaPass tl entries

/-- src/index.ts schema guard, second loop (lines 522-538): own keys of
the value not named in the schema; closed objects reject them, open
objects check them with the rest guard.  `v[key]` for the key under
iteration is the binding value (JS records have unique keys). -/
def restScan (keys : List String) (rest : Option (Value → String)) :
    List (String × Value) → String
  | [] => ""
  | (key, val) :: tl =>
    if keys.contains key then restScan keys rest tl
    else
      match rest with
      | none => key ++ ": unexpected property"
      | some extra =>
        let result := extra val
        if result ≠ "" then key ++ ": " ++ result
        else restScan keys rest tl

/-- src/index.ts `anObject(schema, rest?)`, schema mode (lines 492-560).
The schema is the ordered own-property list of the schema record; `rest`
is the optional resolved rest guard.  Plain records embed as `Value.obj`;
arrays and class instances fail the `isObject` test. -/
def schemaFun (arg : List (String × SchemaEntry)) (rest : Option (Value → String)) :
    Value → String :=
  let guards := arg.map (fun p => (p.1, schemaEntryGuard p.2))
  let keys := arg.map Prod.fst
  fun v =>
    match v with
    | Value.obj entries =>
      let r1 := schemaPass guards entries
      if r1 ≠ "" then r1 else restScan keys rest entries
    | _ => "illegal <" ++ type v ++ "> value, expected <object>"

/-- src/index.ts `all`, general loop (lines 631-645). -/
def allLoop (guards : List (Value → String)) (v : Value) : String :=
  match guards with
  | [] => ""
  | g :: tl =>
    let result := g v
    if result ≠ "" then result else allLoop tl v

/-- src/index.ts `all(sources)` (lines 611-649) over the eagerly resolved
guards, in caller order, with the arity special cases of the source
(`first(v) || second(v)` is JS string disjunction: the first operand if
non-empty, else the second). -/
def allFun (guards : List (Value → String)) : Value → String :=
  match guards with
  | [] => fun _ => ""
  | [g] => fun v => g v
  | [f, s] => fun v => if f v ≠ "" then f v else s v
  | _ => fun v => allLoop guards v

/-- src/index.ts `types` (lines 54-56): constructor names mapped to
lowercase type names. -/
def typesMap (s : String) : Option String :=
  if s = "Null" then some "null"
  else if s = "Boolean" then some "boolean"
  else if s = "Number" then some "number"
  else if s = "String" then some "string"
  else if s = "Function" then some "function"
  else none

/-- The regex replace of src/index.ts line 676: the pattern matches a
leading article `a` or `an` (greedy, so `an` wins when both apply) with
an uppercase-letter lookahead, and the match is removed.  ASCII letters
suffice for the embedded labels. -/
def stripArticle (name : String) : String :=
  match name.toList with
  | 'a' :: 'n' :: c :: rest => if c.isUpper then String.mk (c :: rest) else name
  | 'a' :: c :: rest => if c.isUpper then String.mk (c :: rest) else name
  | _ => name

/-- src/index.ts `label(name)` (lines 674-680). -/
def label (name : String) : String :=
  (typesMap (stripArticle name)).getD (stripArticle name)

/-- JavaScript Array.prototype.join with a separator. -/
def joinSep (sep : String) : List String → String
  | [] => ""
  | [s] => s
  | s :: tl => s ++ sep ++ joinSep sep tl

/-- src/index.ts `any`, expected-labels clause (lines 670-671):
`names.length === 1 ? names[0] : names.slice(0, -1).join(", ") + " or " +
names[names.length - 1]`.  (For the empty mapping the last element reads
as `undefined`; the source never uses the result in that case.) -/
def anyExpected (names : List String) : String :=
  match names with
  | [n] => n
  | _ => joinSep ", " names.dropLast ++ " or " ++ (names.getLast?.getD "undefined")

/-- src/index.ts `any`, general loop (lines 707-719). -/
def anyLoop (guards : List (Value → String)) (err : String) (v : Value) : String :=
  match guards with
  | [] => err
  | g :: tl => if g v = "" then "" else anyLoop tl err v

/-- src/index.ts `any(sources)` (lines 664-723) over the ordered entries
of the source mapping, each already resolved, with the arity special
cases of the source. -/
def anyFun (entries : List (String × (Value → String))) : Value → String :=
  let names := entries.map (fun p => "<" ++ label p.1 ++ ">")
  let expected := anyExpected names
  match entries with
  | [] => fun v => "unexpected <" ++ type v ++ "> value"
  | [(_, first)] => fun v =>
    if first v = "" then "" else "unexpected <" ++ type v ++ "> value, expected " ++ expected
  | [(_, f), (_, s)] => fun v =>
    if f v = "" ∨ s v = "" then "" else "unexpected <" ++ type v ++ "> value, expected " ++ expected
  | _ => fun v =>
    anyLoop (entries.map Prod.snd) ("unexpected <" ++ type v ++ "> value, expected " ++ expected) v

/-! ## Resolver layer (src/cache.ts)

The cache is a `WeakMap` from factory references to guards; factory
references embed as `Nat` keys.  A cached guard is `GCode`: either the
deferred-lookup thunk installed for a key while its factory is
mid-construction, or a cache-independent guard function.  `RState` also
carries an instrumentation counter of how many times each factory body
has been invoked, bumped exactly at the `factory()` call site (cache.ts
line 110); the counter is write-only and affects no behaviour. -/

/-- A guard as stored and evaluated through the resolver cache:
the deferred-lookup thunk of a factory key, a cache-independent guard
function, or the array guard of index.ts 352-384 over a resolved element
guard.  The `arr` form is how a guard built inside a recursive factory
captures the thunk: `anArray(element)` resolves its element at
construction (index.ts line 354), and for a mid-construction factory
that resolution returns the cached thunk (cache.ts line 118). -/
inductive GCode where
  | thunk (key : Nat)
  | prim (f : Value → String)
  | arr (elem : GCode)

/-- The resolver cache: factory identity to cached guard. -/
def Cache := Nat → Option GCode

/-- The element loop of `anArray` (index.ts lines 368-376) lifted to the
resolver layer, where evaluating an element guard may consult the cache
and may diverge (`none` propagates): elements from index 0 upward, first
failure wrapped as `[index]: diagnostic`. -/
def gevElems (ev : Value → Option String) : List Value → Nat → Option String
  | [], _ => some ""
  | e :: tl, index =>
    match ev e with
    | none => none
    | some r =>
      if r ≠ "" then some ("[" ++ toString index ++ "]: " ++ r)
      else gevElems ev tl (index + 1)

/-- Evaluation of a guard that may consult the resolver cache.  The
deferred-lookup thunk (cache.ts lines 100-106) re-reads the cache entry
for its key at call time: absent or itself means empty diagnostic,
anything else is delegated to.  The array guard checks its elements with
its captured element guard.  Fuel bounds the recursion (`none` is
divergence). -/
def gev : Nat → Cache → GCode → Value → Option String
  | 0, _, _, _ => none
  | _ + 1, _, GCode.prim f, v => some (f v)
  | fuel + 1, c, GCode.arr elem, v =>
    match v with
    | Value.arr elems => gevElems (gev fuel c elem) elems 0
    | _ => some ("illegal <" ++ type v ++ "> value, expected <array>")
  | fuel + 1, c, GCode.thunk k, v =>
    match c k with
    | none => some ""
    | some (GCode.prim f) => some (f v)
    | some (GCode.arr e) => gev fuel c (GCode.arr e) v
    | some (GCode.thunk j) => if j = k then some "" else gev fuel c (GCode.thunk j) v

/-- Whether a guard closed over no deferred-lookup thunk: true exactly
for guards built entirely from finished guards (every guard constructed
outside the construction window of a recursive factory). -/
def thunkFree : GCode → Bool
  | GCode.thunk _ => false
  | GCode.prim _ => true
  | GCode.arr e => thunkFree e

/-- Structural depth of a guard code, bounding the evaluation fuel a
thunk-free guard needs. -/
def gdepth : GCode → Nat
  | GCode.thunk _ => 0
  | GCode.prim _ => 0
  | GCode.arr e => gdepth e + 1

/-- Resolver state: the cache plus the body-invocation counter. -/
structure RState where
  cache : Cache
  calls : Nat → Nat

/-- cache.ts `cache.set(key, g)`. -/
def setCache (s : RState) (k : Nat) (g : GCode) : RState :=
  ⟨fun j => if j = k then some g else s.cache j, s.calls⟩

/-- Record one invocation of the body of factory `k`. -/
def bump (s : RState) (k : Nat) : RState :=
  ⟨s.cache, fun j => if j = k then s.calls j + 1 else s.calls j⟩

/-- A factory body: return a concrete guard, return the result of
resolving another (or the same) factory, or throw during construction. -/
inductive FExp where
  | ret (g : Value → String)
  | res (k : Nat)
  | throwF

/-- cache.ts lines 110-114: run the body of factory `key` in state `s1`
(the state at the `factory()` call), then overwrite the cache entry for
`key` with the returned guard.  A thrown exception propagates, leaving
the state as the body left it.  `recur` is the resolution available to
the body (used by `FExp.res`). -/
def invokeBodyWith (recur : Nat → RState → Option (Except Unit GCode × RState))
    (key : Nat) (body : FExp) (s1 : RState) : Option (Except Unit GCode × RState) :=
  match body with
  | FExp.ret g => some (Except.ok (GCode.prim g), setCache s1 key (GCode.prim g))
  | FExp.throwF => some (Except.error (), s1)
  | FExp.res k2 =>
    match recur k2 s1 with
    | none => none
    | some (Except.error e, s2) => some (Except.error e, s2)
    | some (Except.ok g, s2) => some (Except.ok g, setCache s2 key g)

/-- cache.ts `materialize(factory)` (lines 93-122): a finished or pending
entry is returned as is; otherwise the deferred-lookup thunk is installed
under the factory identity, the body is invoked (counter bumped), and on
return the entry is overwritten with the produced guard.  Fuel bounds the
resolution depth (`none` is divergence; the source recursion is bounded
by the factory graph). -/
def materialize (fenv : Nat → FExp) : Nat → Nat → RState → Option (Except Unit GCode × RState)
  | 0, _, _ => none
  | fuel + 1, key, s =>
    match s.cache key with
    | some g => some (Except.ok g, s)
    | none =>
      invokeBodyWith (materialize fenv fuel) key (fenv key)
        (bump (setCache s key (GCode.thunk key)) key)

/-- A guard source (cache.ts `Guarding`): a concrete guard or a factory
reference. -/
inductive Guarding where
  | grd (g : Value → String)
  | fac (k : Nat)

/-- cache.ts `resolve` (lines 85-91) on a defined source: a concrete
guard is returned unchanged, a factory is materialized.  (The `undefined`
passthrough of line 87 carries no behaviour and is omitted.) -/
def resolveG (fenv : Nat → FExp) (fuel : Nat) :
    Guarding → RState → Option (Except Unit GCode × RState)
  | Guarding.grd g, s => some (Except.ok (GCode.prim g), s)
  | Guarding.fac k, s => materialize fenv fuel k s

/-! ## Heap layer (the `as` assertion of src/index.ts)

`as` brands and freezes validated objects, so its embedding threads an
explicit heap of objects.  Structural values (records and arrays) are
references into the heap; the branding symbol slot is the `brand` field
(non-enumerable, hence outside `props`); guardings are identified by
`Nat` (JS reference identity of the guarding passed to `as`). -/

/-- JavaScript values for the heap-based model of `as`. -/
inductive JVal where
  | jnull
  | jundef
  | jbool (b : Bool)
  | jnum (n : Int)
  | jstr (s : String)
  | jref (r : Nat)

/-- A heap object: own data properties, the branding slot (the `Guarded`
symbol property), extensibility, and frozenness. -/
structure HObj where
  props : List (String × JVal)
  brand : Option Nat
  ext : Bool
  frozen : Bool

/-- The object heap; `next` is the next fresh reference. -/
structure Heap where
  objs : Nat → Option HObj
  next : Nat

/-- Overwrite the object at reference `r`. -/
def updObj (h : Heap) (r : Nat) (o : HObj) : Heap :=
  ⟨fun j => if j = r then some o else h.objs j, h.next⟩

/-- `v !== null && typeof v === "object"` (src/index.ts line 224). -/
def isObjVal : JVal → Bool
  | JVal.jref _ => true
  | _ => false

/-- The branding slot read `(v as Object)[Guarded]` (line 226). -/
def brandOf (h : Heap) (v : JVal) : Option Nat :=
  match v with
  | JVal.jref r =>
    match h.objs r with
    | some o => o.brand
    | none => none
  | _ => none

/-- src/index.ts `extensible(o)` (lines 248-253): a fresh plain object
carrying the own property descriptors of `o` except the branding key
(the brand slot of the copy is empty); the fresh object is extensible
and unfrozen. -/
def copyObj (h : Heap) (r : Nat) : Nat × Heap :=
  match h.objs r with
  | some o =>
    (h.next, ⟨fun j => if j = h.next then some ⟨o.props, none, true, false⟩ else h.objs j,
      h.next + 1⟩)
  | none => (h.next, h)

/-- src/index.ts `brand(o)` (lines 239-246):
`Object.freeze(Object.defineProperty(Object.isExtensible(o) ? o :
extensible(o), Guarded, { value: guarding, ... }))` — brand the object
itself when extensible, else a descriptor-copy, then freeze it. -/
def brandOp (guarding : Nat) (h : Heap) (r : Nat) : Nat × Heap :=
  let ext := match h.objs r with
    | some o => o.ext
    | none => false
  let tgt := if ext then (r, h) else copyObj h r
  match (tgt.2).objs tgt.1 with
  | some o => (tgt.1, updObj tgt.2 tgt.1 ⟨o.props, some guarding, false, true⟩)
  | none => tgt

/-- src/index.ts `as(guarding)` applied to a value (lines 218-265): the
memoized fast path returns a structural value already branded by this
exact guarding unchanged; otherwise the resolved guard runs, an empty
diagnostic brands-and-freezes structural values (primitives pass through
untouched), and a non-empty diagnostic is thrown as a TypeError. -/
def asFun (guarding : Nat) (guard : Heap → JVal → String) (h : Heap) (v : JVal) :
    Except String (JVal × Heap) :=
  if isObjVal v = true ∧ brandOf h v = some guarding then Except.ok (v, h)
  else
    let result := guard h v
    if result = "" then
      match v with
      | JVal.jref r =>
        let t := brandOp guarding h r
        Except.ok (JVal.jref t.1, t.2)
      | _ => Except.ok (v, h)
    else Except.error result

/-- Update the binding for `k` in a property list, or append it. -/
def setPropList : List (String × JVal) → String → JVal → List (String × JVal)
  | [], k, val => [(k, val)]
  | (k1, v1) :: tl, k, val =>
    if k1 == k then (k, val) :: tl else (k1, v1) :: setPropList tl k val

/-- JavaScript non-strict property assignment `o[k] = val`: silently a
no-op on a frozen object (every own property non-writable, no
extensions), updates or extends otherwise. -/
def setProp (h : Heap) (r : Nat) (k : String) (val : JVal) : Heap :=
  match h.objs r with
  | none => h
  | some o =>
    if o.frozen then h
    else if o.props.any (fun p => p.1 == k) || o.ext then
      updObj h r ⟨setPropList o.props k val, o.brand, o.ext, o.frozen⟩
    else h

/-! ## Generic string facts for diagnostics -/

lemma append_ne_empty {a : String} (b : String) (ha : a.length ≠ 0) : a ++ b ≠ "" := by
  intro h
  have hl := congrArg String.length h
  rw [String.length_append] at hl
  simp at hl
  omega

lemma append_ne_empty_right (a : String) {b : String} (hb : b.length ≠ 0) : a ++ b ≠ "" := by
  intro h
  have hl := congrArg String.length h
  rw [String.length_append] at hl
  simp at hl
  omega

lemma keyed_diag_ne_empty (key r : String) : key ++ ": " ++ r ≠ "" := by
  apply append_ne_empty
  rw [String.length_append]
  have h2 : (": " : String).length = 2 := rfl
  omega

lemma keyed_lit_ne_empty (key b : String) : key ++ b ≠ "" ∨ b.length = 0 := by
  by_cases hb : b.length = 0
  · exact Or.inr hb
  · exact Or.inl (append_ne_empty_right key hb)

lemma unexpected3_ne_empty (b c : String) : "unexpected <" ++ b ++ c ≠ "" := by
  apply append_ne_empty
  rw [String.length_append]
  have h : ("unexpected <" : String).length = 12 := rfl
  omega

lemma unexpected4_ne_empty (b c d : String) : "unexpected <" ++ b ++ c ++ d ≠ "" := by
  apply append_ne_empty
  rw [String.length_append, String.length_append]
  have h : ("unexpected <" : String).length = 12 := rfl
  omega

lemma illegal3_ne_empty (b c : String) : "illegal <" ++ b ++ c ≠ "" := by
  apply append_ne_empty
  rw [String.length_append]
  have h : ("illegal <" : String).length = 9 := rfl
  omega

lemma bracket_diag_ne_empty (i r : String) : "[" ++ i ++ "]: " ++ r ≠ "" := by
  apply append_ne_empty
  rw [String.length_append, String.length_append]
  have h : ("[" : String).length = 1 := rfl
  omega

/-! ## Facts about `all` (conjunction combinator) -/

lemma allLoop_empty_iff (gs : List (Value → String)) (v : Value) :
    allLoop gs v = "" ↔ ∀ g ∈ gs, g v = "" := by
  induction gs with
  | nil => simp [allLoop]
  | cons g tl ih =>
    by_cases h : g v = ""
    · simp [allLoop, h, ih]
    · simp [allLoop, h, List.forall_mem_cons]

lemma allLoop_first_fail (pre : List (Value → String)) (g : Value → String)
    (post : List (Value → String)) (v : Value)
    (hpre : ∀ p ∈ pre, p v = "") (hg : g v ≠ "") :
    allLoop (pre ++ g :: post) v = g v := by
  induction pre with
  | nil => simp [allLoop, hg]
  | cons p tl ih =>
    have hp : p v = "" := hpre p (List.mem_cons_self p tl)
    simp only [List.cons_append, allLoop, hp]
    exact ih fun q hq => hpre q (List.mem_cons_of_mem p hq)

lemma allFun_eq_allLoop (gs : List (Value → String)) (v : Value) :
    allFun gs v = allLoop gs v := by
  match gs with
  | [] => rfl
  | [g] =>
    simp only [allFun, allLoop]
    by_cases h : g v = "" <;> simp [h]
  | [f, s] =>
    simp only [allFun, allLoop]
    by_cases hf : f v = ""
    · by_cases hs : s v = "" <;> simp [hf, hs]
    · simp [hf]
  | a :: b :: c :: tl => rfl

/-- C6: `all(sources)` resolves sources eagerly in caller order (the
fixed guard list of the embedding); the produced guard returns the first
non-empty diagnostic in that order, returns the empty string exactly when
every guard passes, and `all([])` accepts every value. -/
theorem c6_all_conjunction :
    (∀ (gs : List (Value → String)) (v : Value),
      allFun gs v = "" ↔ ∀ g ∈ gs, g v = "")
    ∧ (∀ (pre : List (Value → String)) (g : Value → String)
        (post : List (Value → String)) (v : Value),
        (∀ p ∈ pre, p v = "") → g v ≠ "" →
        allFun (pre ++ g :: post) v = g v)
    ∧ (∀ v : Value, allFun [] v = "") := by
  refine ⟨?_, ?_, ?_⟩
  · intro gs v
    rw [allFun_eq_allLoop]
    exact allLoop_empty_iff gs v
  · intro pre g post v hpre hg
    rw [allFun_eq_allLoop]
    exact allLoop_first_fail pre g post v hpre hg
  · intro v
    rfl

/-- C6 witness: `all([aNumber, aString])` on the number `3` passes the
first guard and fails with the diagnostic of the second. -/
theorem c6_witness :
    allFun [aNumber, aString] (Value.num 3) = "illegal <number> value, expected <string>" := by
  have h := c6_all_conjunction.2.1 [aNumber] aString [] (Value.num 3)
    (by intro p hp; rw [List.mem_singleton] at hp; subst hp; rfl)
    (by decide)
  simpa using h

/-! ## Facts about `anArray` -/

lemma elementsLoop_empty_iff (g : Value → String) (l : List Value) (i : Nat) :
    elementsLoop g l i = "" ↔ ∀ x ∈ l, g x = "" := by
  induction l generalizing i with
  | nil => simp [elementsLoop]
  | cons e tl ih =>
    by_cases h : g e = ""
    · simp [elementsLoop, h, ih]
    · have hne := bracket_diag_ne_empty (toString i) (g e)
      simp [elementsLoop, h, List.forall_mem_cons, hne]

lemma elementsLoop_first_fail (g : Value → String) (pre : List Value) (e : Value)
    (post : List Value) (i : Nat) (hpre : ∀ x ∈ pre, g x = "") (he : g e ≠ "") :
    elementsLoop g (pre ++ e :: post) i = "[" ++ toString (i + pre.length) ++ "]: " ++ g e := by
  induction pre generalizing i with
  | nil => simp [elementsLoop, he]
  | cons p tl ih =>
    have hp : g p = "" := hpre p (List.mem_cons_self p tl)
    simp only [List.cons_append, elementsLoop, hp, ne_eq, not_true_eq_false, if_neg,
      not_false_eq_true, if_false, List.append_eq]
    rw [ih (i + 1) fun x hx => hpre x (List.mem_cons_of_mem p hx)]
    have harith : i + 1 + tl.length = i + (p :: tl).length := by
      simp [List.length_cons]; omega
    rw [harith]

lemma anArrayFun_not_array (el : Option (Value → String)) (v : Value)
    (hv : isArrayV v = false) :
    anArrayFun el v = "illegal <" ++ type v ++ "> value, expected <array>" := by
  cases v <;> simp_all [anArrayFun, isArrayV]

/-- C7: `anArray(element)` rejects non-arrays with the
`illegal <type> value, expected <array>` diagnostic; on arrays it checks
elements from index 0 in ascending order, returning `[index]: diagnostic`
for the first failing index regardless of the elements after it, and
returns the empty string exactly when the value is an array whose
elements all pass. -/
theorem c7_anarray_elements :
    (∀ (g : Value → String) (v : Value), isArrayV v = false →
      anArrayFun (some g) v = "illegal <" ++ type v ++ "> value, expected <array>")
    ∧ (∀ (g : Value → String) (pre : List Value) (e : Value) (post : List Value),
        (∀ x ∈ pre, g x = "") → g e ≠ "" →
        anArrayFun (some g) (Value.arr (pre ++ e :: post))
          = "[" ++ toString pre.length ++ "]: " ++ g e)
    ∧ (∀ (g : Value → String) (v : Value),
        anArrayFun (some g) v = "" ↔ ∃ l, v = Value.arr l ∧ ∀ x ∈ l, g x = "") := by
  refine ⟨?_, ?_, ?_⟩
  · intro g v hv
    exact anArrayFun_not_array (some g) v hv
  · intro g pre e post hpre he
    show elementsLoop g (pre ++ e :: post) 0 = _
    rw [elementsLoop_first_fail g pre e post 0 hpre he, Nat.zero_add]
  · intro g v
    by_cases hv : isArrayV v = true
    · obtain ⟨l, rfl⟩ : ∃ l, v = Value.arr l := by
        cases v <;> simp [isArrayV] at hv ⊢
      simp [anArrayFun, elementsLoop_empty_iff]
    · replace hv : isArrayV v = false := by simpa using hv
      rw [anArrayFun_not_array (some g) v hv]
      have hne := illegal3_ne_empty (type v) "> value, expected <array>"
      constructor
      · intro hh
        exact absurd hh hne
      · rintro ⟨l, rfl, _⟩
        simp [isArrayV] at hv

/-- C7 witness: `anArray(aNumber)` on `[1, "x", 3]` reports the failure
at index 1 and wraps the element diagnostic. -/
theorem c7_witness :
    anArrayFun (some aNumber) (Value.arr [Value.num 1, Value.str "x", Value.num 3])
      = "[1]: illegal <string> value, expected <number>" := by
  have h := c7_anarray_elements.2.1 aNumber [Value.num 1] (Value.str "x") [Value.num 3]
    (by intro x hx; rw [List.mem_singleton] at hx; subst hx; rfl)
    (by decide)
  rw [show [Value.num 1] ++ Value.str "x" :: [Value.num 3]
      = [Value.num 1, Value.str "x", Value.num 3] from rfl] at h
  rw [h]
  decide

/-! ## Facts about `any` (disjunction combinator) -/

lemma anyLoop_all_fail (gs : List (Value → String)) (err : String) (v : Value)
    (h : ∀ g ∈ gs, g v ≠ "") : anyLoop gs err v = err := by
  induction gs with
  | nil => rfl
  | cons g tl ih =>
    have hg : g v ≠ "" := h g (List.mem_cons_self g tl)
    simp only [anyLoop, hg, if_neg hg]
    exact ih fun q hq => h q (List.mem_cons_of_mem g hq)

lemma anyLoop_empty_iff (gs : List (Value → String)) (err : String) (v : Value)
    (herr : err ≠ "") : anyLoop gs err v = "" ↔ ∃ g ∈ gs, g v = "" := by
  induction gs with
  | nil => simp [anyLoop, herr]
  | cons g tl ih =>
    by_cases h : g v = ""
    · simp [anyLoop, h]
    · simp [anyLoop, h, ih]

lemma anyFun_eq_anyLoop (e1 : String × (Value → String))
    (rest : List (String × (Value → String))) (v : Value) :
    anyFun (e1 :: rest) v
      = anyLoop ((e1 :: rest).map Prod.snd)
          ("unexpected <" ++ type v ++ "> value, expected "
            ++ anyExpected ((e1 :: rest).map fun p => "<" ++ label p.1 ++ ">")) v := by
  match rest with
  | [] =>
    obtain ⟨n1, g1⟩ := e1
    by_cases h : g1 v = "" <;> simp [anyFun, anyLoop, h]
  | [e2] =>
    obtain ⟨n1, g1⟩ := e1
    obtain ⟨n2, g2⟩ := e2
    by_cases h1 : g1 v = "" <;> by_cases h2 : g2 v = "" <;>
      simp [anyFun, anyLoop, h1, h2]
  | e2 :: e3 :: tl => rfl

lemma anyExpected_not_single (names : List String) (h : names.length ≠ 1) :
    anyExpected names
      = joinSep ", " names.dropLast ++ " or " ++ (names.getLast?.getD "undefined") := by
  match names with
  | [] => rfl
  | [n] => exact absurd rfl h
  | a :: b :: tl => rfl

/-- C5: `any(sources)` passes exactly when at least one branch passes;
with two or more branches and no passing branch it synthesizes one
diagnostic `unexpected <type> value, expected ...` listing every label,
two labels joined by a bare or, three or more joined by commas with a
final or; labels strip a leading article before a capital and map known
primitive-factory names to lowercase type names; with zero sources every
input fails and the diagnostic has no expected clause. -/
theorem c5_any_disjunction :
    (∀ (entries : List (String × (Value → String))) (v : Value),
      anyFun entries v = "" ↔ ∃ p ∈ entries, p.2 v = "")
    ∧ (∀ (entries : List (String × (Value → String))) (v : Value),
        2 ≤ entries.length → (∀ p ∈ entries, p.2 v ≠ "") →
        anyFun entries v = "unexpected <" ++ type v ++ "> value, expected "
          ++ (joinSep ", " ((entries.map fun p => "<" ++ label p.1 ++ ">").dropLast)
            ++ " or "
            ++ ((entries.map fun p => "<" ++ label p.1 ++ ">").getLast?.getD "undefined")))
    ∧ (∀ (n1 n2 : String) (g1 g2 : Value → String) (v : Value),
        g1 v ≠ "" → g2 v ≠ "" →
        anyFun [(n1, g1), (n2, g2)] v
          = "unexpected <" ++ type v ++ "> value, expected "
            ++ ("<" ++ label n1 ++ ">" ++ " or " ++ ("<" ++ label n2 ++ ">")))
    ∧ (∀ (n1 n2 n3 : String) (g1 g2 g3 : Value → String) (v : Value),
        g1 v ≠ "" → g2 v ≠ "" → g3 v ≠ "" →
        anyFun [(n1, g1), (n2, g2), (n3, g3)] v
          = "unexpected <" ++ type v ++ "> value, expected "
            ++ ("<" ++ label n1 ++ ">" ++ ", " ++ ("<" ++ label n2 ++ ">")
              ++ " or " ++ ("<" ++ label n3 ++ ">")))
    ∧ (label "aNull" = "null" ∧ label "aBoolean" = "boolean" ∧ label "aNumber" = "number"
        ∧ label "aString" = "string" ∧ label "aFunction" = "function"
        ∧ label "anArray" = "Array" ∧ label "custom" = "custom")
    ∧ (∀ v : Value,
        anyFun [] v = "unexpected <" ++ type v ++ "> value" ∧ anyFun [] v ≠ "") := by
  have herr : ∀ (v : Value) (e : String),
      "unexpected <" ++ type v ++ "> value, expected " ++ e ≠ "" :=
    fun v e => unexpected4_ne_empty (type v) "> value, expected " e
  refine ⟨?_, ?_, ?_, ?_, ?_, ?_⟩
  · intro entries v
    match entries with
    | [] =>
      have hne := unexpected3_ne_empty (type v) "> value"
      simp [anyFun, hne]
    | e1 :: rest =>
      rw [anyFun_eq_anyLoop e1 rest v,
        anyLoop_empty_iff _ _ v (herr v _)]
      simp only [List.mem_map, List.mem_cons]
      constructor
      · rintro ⟨g, ⟨p, hp, rfl⟩, hg⟩
        exact ⟨p, hp, hg⟩
      · rintro ⟨p, hp, hg⟩
        exact ⟨p.2, ⟨p, hp, rfl⟩, hg⟩
  · intro entries v hlen hfail
    match entries with
    | [] => exact absurd hlen (by simp)
    | e1 :: rest =>
      have hfail2 : ∀ g ∈ (e1 :: rest).map Prod.snd, g v ≠ "" := by
        intro g hg
        rw [List.mem_map] at hg
        obtain ⟨p, hp, rfl⟩ := hg
        exact hfail p hp
      have hlen2 : ((e1 :: rest).map fun p => "<" ++ label p.1 ++ ">").length ≠ 1 := by
        rw [List.length_map, List.length_cons]
        rw [List.length_cons] at hlen
        omega
      rw [anyFun_eq_anyLoop e1 rest v, anyLoop_all_fail _ _ v hfail2,
        anyExpected_not_single _ hlen2]
  · intro n1 n2 g1 g2 v h1 h2
    rw [anyFun_eq_anyLoop (n1, g1) [(n2, g2)] v,
      anyLoop_all_fail _ _ v ?_]
    · rfl
    · intro g hg
      simp at hg
      rcases hg with rfl | rfl <;> assumption
  · intro n1 n2 n3 g1 g2 g3 v h1 h2 h3
    rw [anyFun_eq_anyLoop (n1, g1) [(n2, g2), (n3, g3)] v,
      anyLoop_all_fail _ _ v ?_]
    · rfl
    · intro g hg
      simp at hg
      rcases hg with rfl | rfl | rfl <;> assumption
  · refine ⟨by decide, by decide, by decide, by decide, by decide, by decide, by decide⟩
  · intro v
    exact ⟨rfl, unexpected3_ne_empty (type v) "> value"⟩

/-- C5 witness: `any({n: aNumber, s: aString})` on `true` fails with one
synthesized diagnostic naming both labels, and passes on a number. -/
theorem c5_witness :
    anyFun [("n", aNumber), ("s", aString)] (Value.bool true)
      = "unexpected <boolean> value, expected <n> or <s>"
    ∧ anyFun [("n", aNumber), ("s", aString)] (Value.num 7) = "" := by
  constructor
  · have h := c5_any_disjunction.2.2.1 "n" "s" aNumber aString (Value.bool true)
      (by decide) (by decide)
    rw [h]
    decide
  · rw [(c5_any_disjunction.1 [("n", aNumber), ("s", aString)] (Value.num 7))]
    exact ⟨("n", aNumber), by simp, rfl⟩

/-! ## Facts about the schema mode of `anObject` -/

lemma contains_mem_iff (keys : List String) (a : String) :
    keys.contains a = true ↔ a ∈ keys :=
  List.elem_iff

lemma schemaPass_all (gs : List (String × (Value → String)))
    (entries : List (String × Value))
    (h : ∀ p ∈ gs, p.2 (getProp entries p.1) = "") : schemaPass gs entries = "" := by
  induction gs with
  | nil => rfl
  | cons p tl ih =>
    obtain ⟨key, g⟩ := p
    have hp : g (getProp entries key) = "" := h (key, g) (List.mem_cons_self _ tl)
    simp only [schemaPass, hp, ne_eq, not_true_eq_false, if_neg, not_false_eq_true, if_false]
    exact ih fun q hq => h q (List.mem_cons_of_mem _ hq)

lemma schemaPass_first_fail (pre : List (String × (Value → String))) (k : String)
    (g : Value → String) (post : List (String × (Value → String)))
    (entries : List (String × Value))
    (hpre : ∀ p ∈ pre, p.2 (getProp entries p.1) = "")
    (hg : g (getProp entries k) ≠ "") :
    schemaPass (pre ++ (k, g) :: post) entries = k ++ ": " ++ g (getProp entries k) := by
  induction pre with
  | nil => simp [schemaPass, hg]
  | cons p tl ih =>
    obtain ⟨key1, g1⟩ := p
    have hp : g1 (getProp entries key1) = "" := hpre (key1, g1) (List.mem_cons_self _ tl)
    simp only [List.cons_append, schemaPass, hp, ne_eq, not_true_eq_false, if_neg,
      not_false_eq_true, if_false]
    exact ih fun q hq => hpre q (List.mem_cons_of_mem _ hq)

lemma restScan_closed_pass (keys : List String) (entries : List (String × Value))
    (h : ∀ q ∈ entries, q.1 ∈ keys) : restScan keys none entries = "" := by
  induction entries with
  | nil => rfl
  | cons q tl ih =>
    obtain ⟨key, val⟩ := q
    have hk : keys.contains key = true :=
      (contains_mem_iff keys key).mpr (h (key, val) (List.mem_cons_self _ tl))
    simp only [restScan, hk, if_true]
    exact ih fun q hq => h q (List.mem_cons_of_mem _ hq)

lemma restScan_open_pass (keys : List String) (extra : Value → String)
    (entries : List (String × Value))
    (h : ∀ q ∈ entries, q.1 ∈ keys ∨ extra q.2 = "") :
    restScan keys (some extra) entries = "" := by
  induction entries with
  | nil => rfl
  | cons q tl ih =>
    obtain ⟨key, val⟩ := q
    have htl : restScan keys (some extra) tl = "" :=
      ih fun q hq => h q (List.mem_cons_of_mem _ hq)
    rcases h (key, val) (List.mem_cons_self _ tl) with hk | hv
    · have hk2 : keys.contains key = true := (contains_mem_iff keys key).mpr hk
      simp only [restScan, hk2, if_true]
      exact htl
    · by_cases hk2 : keys.contains key = true
      · simp only [restScan, hk2, if_true]
        exact htl
      · simp only [restScan, Bool.not_eq_true] at hk2 ⊢
        simp only [hk2, Bool.false_eq_true, if_false, hv, ne_eq, not_true_eq_false,
          not_false_eq_true, if_neg, if_false]
        exact htl

lemma restScan_closed_fail (keys : List String) (pre : List (String × Value)) (k : String)
    (val : Value) (post : List (String × Value))
    (hpre : ∀ q ∈ pre, q.1 ∈ keys) (hk : k ∉ keys) :
    restScan keys none (pre ++ (k, val) :: post) = k ++ ": unexpected property" := by
  induction pre with
  | nil =>
    have hk2 : keys.contains k = false := by
      by_contra hc
      rw [Bool.not_eq_false] at hc
      exact hk ((contains_mem_iff keys k).mp hc)
    simp [restScan, hk2]
    exact fun hmem => absurd hmem hk
  | cons q tl ih =>
    obtain ⟨key, v⟩ := q
    have hq : keys.contains key = true :=
      (contains_mem_iff keys key).mpr (hpre (key, v) (List.mem_cons_self _ tl))
    simp only [List.cons_append, restScan, hq, if_true]
    exact ih fun q hq => hpre q (List.mem_cons_of_mem _ hq)

lemma restScan_open_fail (keys : List String) (extra : Value → String)
    (pre : List (String × Value)) (k : String) (val : Value) (post : List (String × Value))
    (hpre : ∀ q ∈ pre, q.1 ∈ keys ∨ extra q.2 = "") (hk : k ∉ keys)
    (hval : extra val ≠ "") :
    restScan keys (some extra) (pre ++ (k, val) :: post) = k ++ ": " ++ extra val := by
  induction pre with
  | nil =>
    have hk2 : keys.contains k = false := by
      by_contra hc
      rw [Bool.not_eq_false] at hc
      exact hk ((contains_mem_iff keys k).mp hc)
    simp [restScan, hk2, hval]
    exact fun hmem => absurd hmem hk
  | cons q tl ih =>
    obtain ⟨key, v⟩ := q
    have htl := ih fun q hq => hpre q (List.mem_cons_of_mem _ hq)
    rcases hpre (key, v) (List.mem_cons_self _ tl) with hmem | hv
    · have hq2 : keys.contains key = true := (contains_mem_iff keys key).mpr hmem
      simp only [List.cons_append, restScan, hq2, if_true]
      exact htl
    · by_cases hq2 : keys.contains key = true
      · simp only [List.cons_append, restScan, hq2, if_true]
        exact htl
      · simp only [Bool.not_eq_true] at hq2
        simp only [List.cons_append, restScan, hq2, Bool.false_eq_true, if_false, hv,
          ne_eq, not_true_eq_false, not_false_eq_true, if_neg, if_false]
        exact htl

lemma schemaFun_obj (arg : List (String × SchemaEntry)) (rest : Option (Value → String))
    (entries : List (String × Value)) :
    schemaFun arg rest (Value.obj entries)
      = (if schemaPass (arg.map fun p => (p.1, schemaEntryGuard p.2)) entries ≠ ""
         then schemaPass (arg.map fun p => (p.1, schemaEntryGuard p.2)) entries
         else restScan (arg.map Prod.fst) rest entries) := rfl

/-- C4: the schema mode of `anObject` on a plain record validates schema
entries in schema order — literals by strict equality with the
`unexpected ... expected ...` diagnostic, guard entries by the guard —
returning the first failure as `key: diagnostic` no matter what other
keys the value has; only when every schema entry passes are the value
keys outside the schema scanned, rejected as `key: unexpected property`
when no rest guard was given and checked against the rest guard
otherwise, first failure first. -/
theorem c4_schema_order :
    (∀ (rest : Option (Value → String)) (pre : List (String × SchemaEntry)) (k : String)
        (e : SchemaEntry) (post : List (String × SchemaEntry))
        (entries : List (String × Value)),
        (∀ p ∈ pre, schemaEntryGuard p.2 (getProp entries p.1) = "") →
        schemaEntryGuard e (getProp entries k) ≠ "" →
        schemaFun (pre ++ (k, e) :: post) rest (Value.obj entries)
          = k ++ ": " ++ schemaEntryGuard e (getProp entries k))
    ∧ (∀ (c : Const) (v : Value),
        (constEq c v = true → constant c v = "")
        ∧ (constEq c v = false →
            constant c v = "unexpected <" ++ showJS v ++ "> value, expected <"
              ++ showJS c.toValue ++ ">"))
    ∧ (∀ (arg : List (String × SchemaEntry)) (pre : List (String × Value)) (k : String)
        (val : Value) (post : List (String × Value)),
        (∀ p ∈ arg, schemaEntryGuard p.2 (getProp (pre ++ (k, val) :: post) p.1) = "") →
        (∀ q ∈ pre, q.1 ∈ arg.map Prod.fst) → k ∉ arg.map Prod.fst →
        schemaFun arg none (Value.obj (pre ++ (k, val) :: post))
          = k ++ ": unexpected property")
    ∧ (∀ (arg : List (String × SchemaEntry)) (extra : Value → String)
        (pre : List (String × Value)) (k : String) (val : Value)
        (post : List (String × Value)),
        (∀ p ∈ arg, schemaEntryGuard p.2 (getProp (pre ++ (k, val) :: post) p.1) = "") →
        (∀ q ∈ pre, q.1 ∈ arg.map Prod.fst ∨ extra q.2 = "") → k ∉ arg.map Prod.fst →
        extra val ≠ "" →
        schemaFun arg (some extra) (Value.obj (pre ++ (k, val) :: post))
          = k ++ ": " ++ extra val)
    ∧ (∀ (arg : List (String × SchemaEntry)) (entries : List (String × Value)),
        (∀ p ∈ arg, schemaEntryGuard p.2 (getProp entries p.1) = "") →
        (∀ q ∈ entries, q.1 ∈ arg.map Prod.fst) →
        schemaFun arg none (Value.obj entries) = "")
    ∧ (∀ (arg : List (String × SchemaEntry)) (extra : Value → String)
        (entries : List (String × Value)),
        (∀ p ∈ arg, schemaEntryGuard p.2 (getProp entries p.1) = "") →
        (∀ q ∈ entries, q.1 ∈ arg.map Prod.fst ∨ extra q.2 = "") →
        schemaFun arg (some extra) (Value.obj entries) = "") := by
  have hmap : ∀ (arg : List (String × SchemaEntry)) (entries : List (String × Value)),
      (∀ p ∈ arg, schemaEntryGuard p.2 (getProp entries p.1) = "") →
      ∀ p ∈ arg.map fun p => (p.1, schemaEntryGuard p.2), p.2 (getProp entries p.1) = "" := by
    intro arg entries h p hp
    rw [List.mem_map] at hp
    obtain ⟨q, hq, rfl⟩ := hp
    exact h q hq
  refine ⟨?_, ?_, ?_, ?_, ?_, ?_⟩
  · intro rest pre k e post entries hpre he
    rw [schemaFun_obj, List.map_append, List.map_cons]
    rw [schemaPass_first_fail (pre.map fun p => (p.1, schemaEntryGuard p.2)) k
      (schemaEntryGuard e) (post.map fun p => (p.1, schemaEntryGuard p.2)) entries
      (hmap pre entries hpre) he]
    rw [if_pos (keyed_diag_ne_empty k (schemaEntryGuard e (getProp entries k)))]
  · intro c v
    constructor
    · intro h
      simp [constant, h]
    · intro h
      simp [constant, h]
  · intro arg pre k val post hall hpre hk
    rw [schemaFun_obj, schemaPass_all _ _ (hmap arg _ hall)]
    simp only [ne_eq, not_true_eq_false, if_false]
    exact restScan_closed_fail (arg.map Prod.fst) pre k val post hpre hk
  · intro arg extra pre k val post hall hpre hk hval
    rw [schemaFun_obj, schemaPass_all _ _ (hmap arg _ hall)]
    simp only [ne_eq, not_true_eq_false, if_false]
    exact restScan_open_fail (arg.map Prod.fst) extra pre k val post hpre hk hval
  · intro arg entries hall hkeys
    rw [schemaFun_obj, schemaPass_all _ _ (hmap arg _ hall)]
    simp only [ne_eq, not_true_eq_false, if_false]
    exact restScan_closed_pass (arg.map Prod.fst) entries hkeys
  · intro arg extra entries hall hkeys
    rw [schemaFun_obj, schemaPass_all _ _ (hmap arg _ hall)]
    simp only [ne_eq, not_true_eq_false, if_false]
    exact restScan_open_pass (arg.map Prod.fst) extra entries hkeys

/-- C4 witness: the closed schema `{name: aString}` rejects the record
`{name: "A", extra: 1}` only after the declared property passed, naming
the undeclared key. -/
theorem c4_witness :
    schemaFun [("name", SchemaEntry.grd aString)] none
      (Value.obj [("name", Value.str "A"), ("extra", Value.num 1)])
      = "extra: unexpected property" := by
  have h := c4_schema_order.2.2.1 [("name", SchemaEntry.grd aString)]
    [("name", Value.str "A")] "extra" (Value.num 1) []
    (by
      intro p hp
      rw [List.mem_singleton] at hp
      subst hp
      rfl)
    (by
      intro q hq
      rw [List.mem_singleton] at hq
      subst hq
      simp)
    (by simp)
  simpa using h

/-! ## Facts about the resolver cache -/

lemma setCache_cache (s : RState) (k : Nat) (g : GCode) (j : Nat) :
    (setCache s k g).cache j = if j = k then some g else s.cache j := rfl

lemma bump_calls_self (s : RState) (k : Nat) : (bump s k).calls k = s.calls k + 1 := by
  simp [bump]

lemma materialize_sets_entry (fenv : Nat → FExp) :
    ∀ (fuel key : Nat) (s : RState) (g : GCode) (s1 : RState),
      materialize fenv fuel key s = some (Except.ok g, s1) → s1.cache key = some g := by
  intro fuel
  induction fuel with
  | zero =>
    intro key s g s1 h
    simp [materialize] at h
  | succ n ih =>
    intro key s g s1 h
    cases hc : s.cache key with
    | some g0 =>
      simp only [materialize, hc] at h
      obtain ⟨hg, hs⟩ : g0 = g ∧ s = s1 := by simpa using h
      subst hg
      subst hs
      exact hc
    | none =>
      simp only [materialize, hc] at h
      cases hb : fenv key with
      | ret g0 =>
        rw [hb] at h
        simp only [invokeBodyWith, Option.some.injEq, Prod.mk.injEq, Except.ok.injEq] at h
        obtain ⟨hg, hs⟩ := h
        subst hs
        simp [setCache, hg]
      | throwF =>
        rw [hb] at h
        simp [invokeBodyWith] at h
      | res k2 =>
        rw [hb] at h
        simp only [invokeBodyWith] at h
        cases hm : materialize fenv n k2 (bump (setCache s key (GCode.thunk key)) key) with
        | none =>
          rw [hm] at h
          simp at h
        | some pr =>
          obtain ⟨r2, s2⟩ := pr
          cases r2 with
          | error e =>
            rw [hm] at h
            simp at h
          | ok g2 =>
            rw [hm] at h
            simp only [Option.some.injEq, Prod.mk.injEq, Except.ok.injEq] at h
            obtain ⟨hg, hs⟩ := h
            subst hs
            simp [setCache, hg]

lemma materialize_preserves_calls (fenv : Nat → FExp) :
    ∀ (fuel key : Nat) (s : RState) (r : Except Unit GCode) (s1 : RState),
      materialize fenv fuel key s = some (r, s1) →
      ∀ j, s.cache j ≠ none → s1.calls j = s.calls j := by
  intro fuel
  induction fuel with
  | zero =>
    intro key s r s1 h
    simp [materialize] at h
  | succ n ih =>
    intro key s r s1 h j hj
    cases hc : s.cache key with
    | some g0 =>
      simp only [materialize, hc] at h
      obtain ⟨_, hs⟩ : Except.ok g0 = r ∧ s = s1 := by simpa using h
      subst hs
      rfl
    | none =>
      have hjk : j ≠ key := fun he => hj (he ▸ hc)
      have hw : (bump (setCache s key (GCode.thunk key)) key).calls j = s.calls j := by
        simp [bump, setCache, hjk]
      have hwc : (bump (setCache s key (GCode.thunk key)) key).cache j = s.cache j := by
        simp [bump, setCache, hjk]
      simp only [materialize, hc] at h
      cases hb : fenv key with
      | ret g0 =>
        rw [hb] at h
        simp only [invokeBodyWith, Option.some.injEq, Prod.mk.injEq] at h
        obtain ⟨_, hs⟩ := h
        subst hs
        rw [show (setCache (bump (setCache s key (GCode.thunk key)) key) key
          (GCode.prim g0)).calls j
            = (bump (setCache s key (GCode.thunk key)) key).calls j from rfl, hw]
      | throwF =>
        rw [hb] at h
        simp only [invokeBodyWith, Option.some.injEq, Prod.mk.injEq] at h
        obtain ⟨_, hs⟩ := h
        subst hs
        exact hw
      | res k2 =>
        rw [hb] at h
        simp only [invokeBodyWith] at h
        cases hm : materialize fenv n k2 (bump (setCache s key (GCode.thunk key)) key) with
        | none =>
          rw [hm] at h
          simp at h
        | some pr =>
          obtain ⟨r2, s2⟩ := pr
          have hnested := ih k2 (bump (setCache s key (GCode.thunk key)) key) r2 s2 hm j
            (by rw [hwc]; exact hj)
          cases r2 with
          | error e =>
            rw [hm] at h
            simp only [Option.some.injEq, Prod.mk.injEq] at h
            obtain ⟨_, hs⟩ := h
            subst hs
            rw [hnested, hw]
          | ok g2 =>
            rw [hm] at h
            simp only [Option.some.injEq, Prod.mk.injEq] at h
            obtain ⟨_, hs⟩ := h
            subst hs
            rw [show (setCache s2 key g2).calls j = s2.calls j from rfl, hnested, hw]

/-- C1: on a cache miss, `resolve` installs the deferred-lookup thunk
under the factory identity strictly before the factory body is invoked
(the invocation state already carries the thunk as the entry); the thunk,
applied to a value, re-reads the entry for that identity at call time,
returning the empty diagnostic when the entry is absent or still the
thunk itself, and delegating to a different finished guard. -/
theorem c1_deferred_thunk_install
    (fenv : Nat → FExp) (fuel key : Nat) (s : RState) (hs : s.cache key = none)
    (c : Cache) (v : Value) (f : Value → String) (n : Nat) :
    (materialize fenv (fuel + 1) key s
        = invokeBodyWith (materialize fenv fuel) key (fenv key)
            (bump (setCache s key (GCode.thunk key)) key)
      ∧ (bump (setCache s key (GCode.thunk key)) key).cache key = some (GCode.thunk key))
    ∧ (c key = none → gev (n + 1) c (GCode.thunk key) v = some "")
    ∧ (c key = some (GCode.thunk key) → gev (n + 1) c (GCode.thunk key) v = some "")
    ∧ (c key = some (GCode.prim f) → gev (n + 1) c (GCode.thunk key) v = some (f v)) := by
  refine ⟨⟨?_, ?_⟩, ?_, ?_, ?_⟩
  · simp [materialize, hs]
  · simp [bump, setCache]
  · intro h
    simp [gev, h]
  · intro h
    simp [gev, h]
  · intro h
    simp [gev, h]

/-- C1 witness: resolving factory 0 from the empty state runs its body in
a state whose entry for key 0 is the thunk, and the thunk accepts when
its entry is absent. -/
theorem c1_witness :
    (bump (setCache ⟨fun _ => none, fun _ => 0⟩ 0 (GCode.thunk 0)) 0).cache 0
        = some (GCode.thunk 0)
    ∧ gev 1 (fun _ => none) (GCode.thunk 0) Value.null = some "" := by
  have h := c1_deferred_thunk_install (fun _ => FExp.ret anUnknown) 1 0
    ⟨fun _ => none, fun _ => 0⟩ rfl (fun _ => none) Value.null anUnknown 0
  exact ⟨h.1.2, h.2.1 rfl⟩

/-- C2: a successful resolution of a factory leaves the finished guard as
the cache entry, so a second resolution of the same factory reference
returns the identical guard with the state untouched, and the factory
body has run exactly once. -/
theorem c2_resolution_idempotent (fenv : Nat → FExp) (fuel fuel2 key : Nat) (s : RState)
    (g : GCode) (s1 : RState)
    (h : resolveG fenv fuel (Guarding.fac key) s = some (Except.ok g, s1))
    (hs : s.cache key = none) :
    resolveG fenv (fuel2 + 1) (Guarding.fac key) s1 = some (Except.ok g, s1)
    ∧ s1.calls key = s.calls key + 1 := by
  simp only [resolveG] at h
  constructor
  · have hset := materialize_sets_entry fenv fuel key s g s1 h
    simp [resolveG, materialize, hset]
  · cases fuel with
    | zero => simp [materialize] at h
    | succ n =>
      simp only [materialize, hs] at h
      have hw : (bump (setCache s key (GCode.thunk key)) key).calls key = s.calls key + 1 := by
        simp [bump, setCache]
      cases hb : fenv key with
      | ret g0 =>
        rw [hb] at h
        simp only [invokeBodyWith, Option.some.injEq, Prod.mk.injEq] at h
        obtain ⟨_, hs1⟩ := h
        subst hs1
        rw [show (setCache (bump (setCache s key (GCode.thunk key)) key) key
          (GCode.prim g0)).calls key
            = (bump (setCache s key (GCode.thunk key)) key).calls key from rfl, hw]
      | throwF =>
        rw [hb] at h
        simp [invokeBodyWith] at h
      | res k2 =>
        rw [hb] at h
        simp only [invokeBodyWith] at h
        cases hm : materialize fenv n k2 (bump (setCache s key (GCode.thunk key)) key) with
        | none =>
          rw [hm] at h
          simp at h
        | some pr =>
          obtain ⟨r2, s2⟩ := pr
          cases r2 with
          | error e =>
            rw [hm] at h
            simp at h
          | ok g2 =>
            have hnested := materialize_preserves_calls fenv n k2
              (bump (setCache s key (GCode.thunk key)) key) (Except.ok g2) s2 hm key
              (by simp [bump, setCache])
            rw [hm] at h
            simp only [Option.some.injEq, Prod.mk.injEq, Except.ok.injEq] at h
            obtain ⟨_, hs1⟩ := h
            subst hs1
            rw [show (setCache s2 key g2).calls key = s2.calls key from rfl, hnested, hw]

/-- C2 witness: resolving factory 0 (body `aNumber`) twice from the empty
state returns the same guard both times, leaves the state fixed, and the
invocation counter for the factory is exactly one. -/
theorem c2_witness :
    resolveG (fun _ => FExp.ret aNumber) 2
        (Guarding.fac 0)
        (setCache (bump (setCache ⟨fun _ => none, fun _ => 0⟩ 0 (GCode.thunk 0)) 0) 0
          (GCode.prim aNumber))
      = some (Except.ok (GCode.prim aNumber),
          setCache (bump (setCache ⟨fun _ => none, fun _ => 0⟩ 0 (GCode.thunk 0)) 0) 0
            (GCode.prim aNumber))
    ∧ (setCache (bump (setCache ⟨fun _ => none, fun _ => 0⟩ 0 (GCode.thunk 0)) 0) 0
        (GCode.prim aNumber)).calls 0
      = (⟨fun _ => none, fun _ => 0⟩ : RState).calls 0 + 1 := by
  have h := c2_resolution_idempotent (fun _ => FExp.ret aNumber) 1 1 0
    ⟨fun _ => none, fun _ => 0⟩ (GCode.prim aNumber)
    (setCache (bump (setCache ⟨fun _ => none, fun _ => 0⟩ 0 (GCode.thunk 0)) 0) 0
      (GCode.prim aNumber))
    rfl rfl
  exact h

/-- C8: a factory that throws during its invocation propagates the
exception out of `resolve`, the cache keeps the deferred-lookup thunk as
the entry for that identity, every later resolution of the same factory
returns that thunk with the state (and the invocation counter) untouched,
and the thunk accepts every value with the empty diagnostic. -/
theorem c8_throwing_factory (fenv : Nat → FExp) (fuel fuel2 n key : Nat) (s : RState)
    (v : Value) (hbody : fenv key = FExp.throwF) (hs : s.cache key = none) :
    materialize fenv (fuel + 1) key s
        = some (Except.error (), bump (setCache s key (GCode.thunk key)) key)
    ∧ (bump (setCache s key (GCode.thunk key)) key).cache key = some (GCode.thunk key)
    ∧ materialize fenv (fuel2 + 1) key (bump (setCache s key (GCode.thunk key)) key)
        = some (Except.ok (GCode.thunk key), bump (setCache s key (GCode.thunk key)) key)
    ∧ gev (n + 1) (bump (setCache s key (GCode.thunk key)) key).cache
        (GCode.thunk key) v = some "" := by
  have hentry : (bump (setCache s key (GCode.thunk key)) key).cache key
      = some (GCode.thunk key) := by simp [bump, setCache]
  refine ⟨?_, hentry, ?_, ?_⟩
  · simp [materialize, hs, hbody, invokeBodyWith]
  · simp [materialize, hentry]
  · simp [gev, hentry]

/-- C8 witness: a factory that throws at key 0, resolved from the empty
state: the error propagates with the thunk left cached, and the cached
thunk accepts the number 5. -/
theorem c8_witness :
    materialize (fun _ => FExp.throwF) 1 0 ⟨fun _ => none, fun _ => 0⟩
        = some (Except.error (),
            bump (setCache ⟨fun _ => none, fun _ => 0⟩ 0 (GCode.thunk 0)) 0)
    ∧ gev 1 (bump (setCache ⟨fun _ => none, fun _ => 0⟩ 0 (GCode.thunk 0)) 0).cache
        (GCode.thunk 0) (Value.num 5) = some "" := by
  have h := c8_throwing_factory (fun _ => FExp.throwF) 0 0 0 0
    ⟨fun _ => none, fun _ => 0⟩ (Value.num 5) rfl rfl
  exact ⟨h.1, h.2.2.2⟩

/-- C9 counterexample: the deferred-lookup thunk is a guard whose result
for a fixed input changes across cache states that actually arise during
one resolution: in the installation state (the entry for its key is the
thunk itself, exactly the state in which the factory body runs) it
returns the empty diagnostic, while after the same resolution finishes
(the entry is the factory result, a guard rejecting everything with
"boom") it returns "boom" — two invocations of the same guard reference
on the same input with different results. -/
theorem c9_counterexample :
    gev 1 (fun j => if j = 0 then some (GCode.thunk 0) else none) (GCode.thunk 0) Value.null
        = some ""
    ∧ (bump (setCache ⟨fun _ => none, fun _ => 0⟩ 0 (GCode.thunk 0)) 0).cache
        = (fun j => if j = 0 then some (GCode.thunk 0) else none)
    ∧ ((match materialize (fun _ => FExp.ret fun _ => "boom") 1 0
          ⟨fun _ => none, fun _ => 0⟩ with
        | some (Except.ok _, sfin) => gev 1 sfin.cache (GCode.thunk 0) Value.null
        | _ => none) = some "boom")
    ∧ (some "" : Option String) ≠ some "boom" := by
  refine ⟨rfl, rfl, rfl, by decide⟩

lemma gevElems_congr (ev ev1 : Value → Option String) (l : List Value) (i : Nat)
    (h : ∀ e ∈ l, ev e = ev1 e) : gevElems ev l i = gevElems ev1 l i := by
  induction l generalizing i with
  | nil => rfl
  | cons e tl ih =>
    have htl := ih (i + 1) fun x hx => h x (List.mem_cons_of_mem e hx)
    simp only [gevElems, h e (List.mem_cons_self e tl)]
    cases hv : ev1 e with
    | none => rfl
    | some r =>
      by_cases hr : r = ""
      · simp only [hr, ne_eq, not_true_eq_false, if_neg, not_false_eq_true, if_false]
        exact htl
      · simp [hr]

/-- C9 amended: every guard whose construction closed over no
deferred-lookup thunk — any guard built only from finished guards, which
is every guard constructed outside the construction window of a
recursive factory — is deterministic across calls: on a fixed input its
result is identical across any two cache states and any two times (any
sufficient fuel).  Guards that captured a thunk (the thunk itself, or a
structural guard whose element resolved to a mid-construction thunk)
read the live cache at validation time and are excluded. -/
theorem c9_guard_determinism_amended :
    ∀ (g : GCode), thunkFree g = true →
    ∀ (fuel fuel1 : Nat), gdepth g < fuel → gdepth g < fuel1 →
    ∀ (c c1 : Cache) (v : Value), gev fuel c g v = gev fuel1 c1 g v := by
  intro g
  induction g with
  | thunk k =>
    intro h
    simp [thunkFree] at h
  | prim f =>
    intro _ fuel fuel1 hf hf1 c c1 v
    obtain ⟨n, rfl⟩ : ∃ n, fuel = n + 1 := ⟨fuel - 1, by omega⟩
    obtain ⟨n1, rfl⟩ : ∃ n1, fuel1 = n1 + 1 := ⟨fuel1 - 1, by omega⟩
    simp [gev]
  | arr elem ih =>
    intro hfree fuel fuel1 hf hf1 c c1 v
    have hfree1 : thunkFree elem = true := by simpa [thunkFree] using hfree
    obtain ⟨n, rfl⟩ : ∃ n, fuel = n + 1 := ⟨fuel - 1, by omega⟩
    obtain ⟨n1, rfl⟩ : ∃ n1, fuel1 = n1 + 1 := ⟨fuel1 - 1, by omega⟩
    have hd : gdepth elem < n := by
      simp only [gdepth] at hf
      omega
    have hd1 : gdepth elem < n1 := by
      simp only [gdepth] at hf1
      omega
    cases v with
    | arr elems =>
      simp only [gev]
      exact gevElems_congr _ _ elems 0 fun e _ => ih hfree1 n n1 hd hd1 c c1 e
    | null => rfl
    | undef => rfl
    | bool b => rfl
    | num m => rfl
    | str s => rfl
    | fn id => rfl
    | obj entries => rfl

/-- C9 amended witness: the array guard over the finished number guard —
a thunk-free structural composite — evaluates identically under the
empty cache and under a cache holding a pending thunk, at two different
fuels. -/
theorem c9_witness :
    gev 2 (fun _ => none) (GCode.arr (GCode.prim aNumber)) (Value.arr [Value.num 3])
      = gev 3 (fun j => if j = 0 then some (GCode.thunk 0) else none)
          (GCode.arr (GCode.prim aNumber)) (Value.arr [Value.num 3]) :=
  c9_guard_determinism_amended (GCode.arr (GCode.prim aNumber)) rfl 2 3
    (by decide) (by decide) (fun _ => none)
    (fun j => if j = 0 then some (GCode.thunk 0) else none) (Value.arr [Value.num 3])

/-! ## Facts about the `as` assertion -/

/-- C3: for any guarding and any structural value it accepts, `as`
returns a branded frozen object; applying `as` of the same guarding to
that output takes the memoized fast path, returning the exact same
reference with the heap untouched, and property assignment on the output
never changes the heap. -/
theorem c3_as_memoized_immutable (guarding : Nat) (guard : Heap → JVal → String)
    (h : Heap) (r : Nat) (o : HObj)
    (hr : h.objs r = some o)
    (hnb : o.brand ≠ some guarding)
    (hacc : guard h (JVal.jref r) = "") :
    ∃ (t : Nat) (h1 : Heap),
      asFun guarding guard h (JVal.jref r) = Except.ok (JVal.jref t, h1)
      ∧ asFun guarding guard h1 (JVal.jref t) = Except.ok (JVal.jref t, h1)
      ∧ (∃ o1, h1.objs t = some o1 ∧ o1.brand = some guarding ∧ o1.frozen = true)
      ∧ (∀ (k : String) (val : JVal), setProp h1 t k val = h1) := by
  have hfast : ¬(isObjVal (JVal.jref r) = true ∧ brandOf h (JVal.jref r) = some guarding) := by
    intro hcon
    rw [brandOf, hr] at hcon
    exact hnb hcon.2
  cases ho : o.ext with
  | true =>
    refine ⟨r, updObj h r ⟨o.props, some guarding, false, true⟩, ?_, ?_, ?_, ?_⟩
    · rw [asFun, if_neg hfast]
      simp only [hacc, if_pos]
      rw [show brandOp guarding h r = (r, updObj h r ⟨o.props, some guarding, false, true⟩) by
        simp [brandOp, hr, ho]]
    · have hb1 : brandOf (updObj h r ⟨o.props, some guarding, false, true⟩) (JVal.jref r)
          = some guarding := by
        simp [brandOf, updObj]
      rw [asFun, if_pos ⟨rfl, hb1⟩]
    · exact ⟨⟨o.props, some guarding, false, true⟩, by simp [updObj], rfl, rfl⟩
    · intro k val
      have hobj : (updObj h r ⟨o.props, some guarding, false, true⟩).objs r
          = some ⟨o.props, some guarding, false, true⟩ := by simp [updObj]
      rw [setProp, hobj]
      simp
  | false =>
    refine ⟨h.next,
      updObj ⟨fun j => if j = h.next then some ⟨o.props, none, true, false⟩ else h.objs j,
        h.next + 1⟩ h.next ⟨o.props, some guarding, false, true⟩, ?_, ?_, ?_, ?_⟩
    · rw [asFun, if_neg hfast]
      simp only [hacc, if_pos]
      rw [show brandOp guarding h r
          = (h.next,
              updObj ⟨fun j => if j = h.next then some ⟨o.props, none, true, false⟩
                  else h.objs j, h.next + 1⟩ h.next ⟨o.props, some guarding, false, true⟩) by
        simp [brandOp, copyObj, hr, ho]]
    · have hb1 : brandOf (updObj ⟨fun j => if j = h.next then some ⟨o.props, none, true, false⟩
            else h.objs j, h.next + 1⟩ h.next ⟨o.props, some guarding, false, true⟩)
          (JVal.jref h.next) = some guarding := by
        simp [brandOf, updObj]
      rw [asFun, if_pos ⟨rfl, hb1⟩]
    · exact ⟨⟨o.props, some guarding, false, true⟩, by simp [updObj], rfl, rfl⟩
    · intro k val
      have hobj : (updObj ⟨fun j => if j = h.next then some ⟨o.props, none, true, false⟩
            else h.objs j, h.next + 1⟩ h.next ⟨o.props, some guarding, false, true⟩).objs h.next
          = some ⟨o.props, some guarding, false, true⟩ := by simp [updObj]
      rw [setProp, hobj]
      simp

/-- C3 witness: a concrete one-object heap whose object the trivial guard
accepts: `as` brands and freezes it, re-running `as` is the identity on
the result, and assignments to the result change nothing. -/
theorem c3_witness :
    ∃ (t : Nat) (h1 : Heap),
      asFun 7 (fun _ _ => "")
          ⟨fun j => if j = 0 then some ⟨[("x", JVal.jnum 1)], none, true, false⟩ else none, 1⟩
          (JVal.jref 0) = Except.ok (JVal.jref t, h1)
      ∧ asFun 7 (fun _ _ => "") h1 (JVal.jref t) = Except.ok (JVal.jref t, h1)
      ∧ (∃ o1, h1.objs t = some o1 ∧ o1.brand = some 7 ∧ o1.frozen = true)
      ∧ (∀ (k : String) (val : JVal), setProp h1 t k val = h1) :=
  c3_as_memoized_immutable 7 (fun _ _ => "")
    ⟨fun j => if j = 0 then some ⟨[("x", JVal.jnum 1)], none, true, false⟩ else none, 1⟩
    0 ⟨[("x", JVal.jnum 1)], none, true, false⟩ rfl (by simp) rfl

/-- C10: `as` on an accepted unbranded structural value: when the object
is not extensible the result is a fresh reference — distinct from the
input — holding the input's own properties (the branding slot of the
copy starts empty), branded with the guarding and frozen, while the
input object is left exactly as it was; when the object is extensible
the input reference itself is branded, frozen and returned. -/
theorem c10_brand_extensible (guarding : Nat) (guard : Heap → JVal → String)
    (h : Heap) (r : Nat) (o : HObj)
    (hr : h.objs r = some o)
    (hnb : o.brand = none)
    (hacc : guard h (JVal.jref r) = "")
    (hfresh : h.objs h.next = none) :
    (o.ext = false →
      r ≠ h.next
      ∧ asFun guarding guard h (JVal.jref r)
          = Except.ok (JVal.jref h.next,
              updObj ⟨fun j => if j = h.next then some ⟨o.props, none, true, false⟩
                  else h.objs j, h.next + 1⟩ h.next ⟨o.props, some guarding, false, true⟩)
      ∧ (updObj ⟨fun j => if j = h.next then some ⟨o.props, none, true, false⟩
            else h.objs j, h.next + 1⟩ h.next ⟨o.props, some guarding, false, true⟩).objs h.next
          = some ⟨o.props, some guarding, false, true⟩
      ∧ (updObj ⟨fun j => if j = h.next then some ⟨o.props, none, true, false⟩
            else h.objs j, h.next + 1⟩ h.next ⟨o.props, some guarding, false, true⟩).objs r
          = some o)
    ∧ (o.ext = true →
      asFun guarding guard h (JVal.jref r)
          = Except.ok (JVal.jref r, updObj h r ⟨o.props, some guarding, false, true⟩)
      ∧ (updObj h r ⟨o.props, some guarding, false, true⟩).objs r
          = some ⟨o.props, some guarding, false, true⟩) := by
  have hfast : ¬(isObjVal (JVal.jref r) = true ∧ brandOf h (JVal.jref r) = some guarding) := by
    intro hcon
    rw [brandOf, hr] at hcon
    have h2 : o.brand = some guarding := hcon.2
    rw [hnb] at h2
    exact Option.noConfusion h2
  have hrn : r ≠ h.next := by
    intro he
    rw [he, hfresh] at hr
    exact Option.noConfusion hr
  constructor
  · intro ho
    refine ⟨hrn, ?_, ?_, ?_⟩
    · rw [asFun, if_neg hfast]
      simp only [hacc, if_pos]
      rw [show brandOp guarding h r
          = (h.next,
              updObj ⟨fun j => if j = h.next then some ⟨o.props, none, true, false⟩
                  else h.objs j, h.next + 1⟩ h.next ⟨o.props, some guarding, false, true⟩) by
        simp [brandOp, copyObj, hr, ho]]
    · simp [updObj]
    · simp [updObj, hrn, hr]
  · intro ho
    constructor
    · rw [asFun, if_neg hfast]
      simp only [hacc, if_pos]
      rw [show brandOp guarding h r = (r, updObj h r ⟨o.props, some guarding, false, true⟩) by
        simp [brandOp, hr, ho]]
    · simp [updObj]

/-- C10 witness: a heap with one frozen (non-extensible) accepted object:
`as` returns the fresh reference 1 carrying the same property list,
branded and frozen, and the original object at reference 0 is unchanged;
a second heap whose object is extensible is branded in place. -/
theorem c10_witness :
    ((⟨[("y", JVal.jstr "v")], none, false, true⟩ : HObj).ext = false →
      (0 : Nat) ≠ (⟨fun j => if j = 0 then some ⟨[("y", JVal.jstr "v")], none, false, true⟩
          else none, 1⟩ : Heap).next
      ∧ asFun 3 (fun _ _ => "")
          ⟨fun j => if j = 0 then some ⟨[("y", JVal.jstr "v")], none, false, true⟩
            else none, 1⟩ (JVal.jref 0)
        = Except.ok (JVal.jref (⟨fun j => if j = 0 then
              some ⟨[("y", JVal.jstr "v")], none, false, true⟩ else none, 1⟩ : Heap).next,
            updObj ⟨fun j => if j = (⟨fun j => if j = 0 then
                  some ⟨[("y", JVal.jstr "v")], none, false, true⟩ else none, 1⟩ : Heap).next
                then some ⟨[("y", JVal.jstr "v")], none, true, false⟩
                else (⟨fun j => if j = 0 then
                  some ⟨[("y", JVal.jstr "v")], none, false, true⟩ else none, 1⟩ : Heap).objs j,
                (⟨fun j => if j = 0 then some ⟨[("y", JVal.jstr "v")], none, false, true⟩
                  else none, 1⟩ : Heap).next + 1⟩
              (⟨fun j => if j = 0 then some ⟨[("y", JVal.jstr "v")], none, false, true⟩
                else none, 1⟩ : Heap).next
              ⟨[("y", JVal.jstr "v")], some 3, false, true⟩)
      ∧ (updObj ⟨fun j => if j = (⟨fun j => if j = 0 then
              some ⟨[("y", JVal.jstr "v")], none, false, true⟩ else none, 1⟩ : Heap).next
            then some ⟨[("y", JVal.jstr "v")], none, true, false⟩
            else (⟨fun j => if j = 0 then
              some ⟨[("y", JVal.jstr "v")], none, false, true⟩ else none, 1⟩ : Heap).objs j,
            (⟨fun j => if j = 0 then some ⟨[("y", JVal.jstr "v")], none, false, true⟩
              else none, 1⟩ : Heap).next + 1⟩
          (⟨fun j => if j = 0 then some ⟨[("y", JVal.jstr "v")], none, false, true⟩
            else none, 1⟩ : Heap).next
          ⟨[("y", JVal.jstr "v")], some 3, false, true⟩).objs
          (⟨fun j => if j = 0 then some ⟨[("y", JVal.jstr "v")], none, false, true⟩
            else none, 1⟩ : Heap).next
        = some ⟨[("y", JVal.jstr "v")], some 3, false, true⟩
      ∧ (updObj ⟨fun j => if j = (⟨fun j => if j = 0 then
              some ⟨[("y", JVal.jstr "v")], none, false, true⟩ else none, 1⟩ : Heap).next
            then some ⟨[("y", JVal.jstr "v")], none, true, false⟩
            else (⟨fun j => if j = 0 then
              some ⟨[("y", JVal.jstr "v")], none, false, true⟩ else none, 1⟩ : Heap).objs j,
            (⟨fun j => if j = 0 then some ⟨[("y", JVal.jstr "v")], none, false, true⟩
              else none, 1⟩ : Heap).next + 1⟩
          (⟨fun j => if j = 0 then some ⟨[("y", JVal.jstr "v")], none, false, true⟩
            else none, 1⟩ : Heap).next
          ⟨[("y", JVal.jstr "v")], some 3, false, true⟩).objs 0
        = some ⟨[("y", JVal.jstr "v")], none, false, true⟩)
    ∧ ((⟨[("y", JVal.jstr "v")], none, false, true⟩ : HObj).ext = true →
      asFun 3 (fun _ _ => "")
          ⟨fun j => if j = 0 then some ⟨[("y", JVal.jstr "v")], none, false, true⟩
            else none, 1⟩ (JVal.jref 0)
        = Except.ok (JVal.jref 0,
            updObj ⟨fun j => if j = 0 then some ⟨[("y", JVal.jstr "v")], none, false, true⟩
              else none, 1⟩ 0 ⟨[("y", JVal.jstr "v")], some 3, false, true⟩)
      ∧ (updObj ⟨fun j => if j = 0 then some ⟨[("y", JVal.jstr "v")], none, false, true⟩
            else none, 1⟩ 0 ⟨[("y", JVal.jstr "v")], some 3, false, true⟩).objs 0
          = some ⟨[("y", JVal.jstr "v")], some 3, false, true⟩) :=
  c10_brand_extensible 3 (fun _ _ => "")
    ⟨fun j => if j = 0 then some ⟨[("y", JVal.jstr "v")], none, false, true⟩ else none, 1⟩
    0 ⟨[("y", JVal.jstr "v")], none, false, true⟩ rfl rfl rfl rfl

end MetreecaType
